import Mathlib

/-!
Verification of the running-style / pace / scoring core of the keiba-yosou
repository, shallowly embedded in Lean 4.

Embedding conventions:
* Python dicts with fixed key sets become structures; a key that may be
  absent becomes an Option field, and the Python default of a
  corresponding get call is applied with Option.getD at each use site,
  mirroring the source line by line.
* Python ints are Int or Nat; Python floats are modelled as exact
  rationals, except where the source applies transcendental functions
  (math.tanh, math.log, statistics.pstdev), which are modelled over the
  real numbers with Real.tanh, Real.log and Real.sqrt.  IEEE-754 rounding
  of individual float operations is not modelled.
* Python round(x, n) is banker's rounding (round half to even); it is
  modelled exactly by roundHalfEven below.
* datetime.now() in horse_evaluator._eval_weight_change is modelled by an
  explicit parameter today (the proleptic-Gregorian ordinal of the current
  date), which makes the dependence of the evaluator on the wall clock
  visible in the model.
* A Python function that can raise is modelled with Except Unit; raising
  is the error case, and exception propagation is the Except monad.
* list.sort(key=..., reverse=True) is a stable descending sort; it is
  modelled with insertion sort descending on the key.  The verified
  claims depend only on the multiset of rows and on the ordering of keys,
  not on tie order.
-/

/-- ASCII digit list to the natural number it denotes (Python int of a
digit string; leading zeros allowed). -/
def digitsToNat (l : List Char) : Nat :=
  l.foldl (fun a c => 10 * a + (c.toNat - 48)) 0

/-- Split a maximal leading run of ASCII digits off a character list. -/
def takeDigits : List Char → List Char × List Char
  | [] => ([], [])
  | c :: cs =>
    if c.isDigit then
      let p := takeDigits cs
      (c :: p.1, p.2)
    else ([], c :: cs)

theorem takeDigits_snd_length (l : List Char) : (takeDigits l).2.length ≤ l.length := by
  induction l with
  | nil => simp [takeDigits]
  | cons c cs ih =>
    simp only [takeDigits]
    by_cases h : c.isDigit
    · simp only [h, if_true]
      exact Nat.le_succ_of_le ih
    · simp [h]

/-- Fuel-bounded worker for dashGroups; the fuel only needs to exceed the
number of groups, and every recursive step consumes at least two
characters of the list, so the list length is always enough fuel. -/
def dashGroupsF : ℕ → List Char → List (List Char)
  | 0, _ => []
  | _ + 1, [] => []
  | fuel + 1, c :: rest =>
    if c = '-' then
      let p := takeDigits rest
      if p.1 = [] then [] else p.1 :: dashGroupsF fuel p.2
    else []

/-- Repeatedly consume groups of the form dash-then-digits, as the greedy
regex fragment of one or more occurrences of a dash followed by digits
does in pace data parsing.  Returns the digit groups in order. -/
def dashGroups (l : List Char) : List (List Char) := dashGroupsF l.length l

/-- Leftmost match of the corner-position regex (digits, then one or more
groups of a dash followed by digits) in pace_data_parser.parse_pace_data.
Returns all digit groups of the match.  Scanning advances one character on
failure, exactly as re.search does; greediness of the digit runs matches
the regex because a shorter digit run is followed by another digit, never
by a dash. -/
def searchCornerRun : List Char → Option (List (List Char))
  | [] => none
  | c :: cs =>
    let p := takeDigits (c :: cs)
    if p.1 ≠ [] then
      let gs := dashGroups p.2
      if gs ≠ [] then some (p.1 :: gs) else searchCornerRun cs
    else searchCornerRun cs

/-- Python whitespace class backslash-s over the ASCII range. -/
def pyIsSpace (c : Char) : Bool :=
  c = ' ' || c = '\t' || c = '\n' || c = '\r' || c = Char.ofNat 11 || c = Char.ofNat 12

/-- Character allowed in the captured group of the 3-furlong regex:
an ASCII digit or a dot. -/
def isFloatChar (c : Char) : Bool := c.isDigit || c = '.'

/-- Leftmost match of the 3-furlong regex (literal 3F, one or more
whitespace characters, then a nonempty greedy run of digits and dots) in
pace_data_parser.parse_pace_data.  Returns the captured digit-and-dot
run. -/
def searchThreeF : List Char → Option (List Char)
  | [] => none
  | c :: cs =>
    match c, cs with
    | '3', 'F' :: rest =>
      let ws := rest.takeWhile pyIsSpace
      let afterWs := rest.dropWhile pyIsSpace
      let grp := afterWs.takeWhile isFloatChar
      if ws ≠ [] ∧ grp ≠ [] then some grp else searchThreeF cs
    | _, _ => searchThreeF cs

/-- Python float() applied to a string drawn from digits and dots: it
succeeds exactly when the string has at most one dot and at least one
digit, and then denotes the decimal value. -/
def pyFloatOfDigitsDots (l : List Char) : Option ℚ :=
  if (l.countP (fun c => c = '.')) ≤ 1 ∧ l.any Char.isDigit then
    let intPart := l.takeWhile (fun c => c ≠ '.')
    let fracPart := (l.dropWhile (fun c => c ≠ '.')).drop 1
    some ((digitsToNat intPart : ℚ) + (digitsToNat fracPart : ℚ) / 10 ^ fracPart.length)
  else none

/-- Embedding of pace_data_parser.parse_pace_data.  The corner-position
average uses Python int() on the float quotient, which truncates; for the
nonnegative values here that is floor, i.e. Nat division.  The value error
that float() raises on a malformed captured group (for example two dots)
is the error case. -/
def parsePaceData (timeMarginPace : String) : Except Unit (Option ℕ × Option ℚ) :=
  if timeMarginPace = "" then .ok (none, none)
  else
    let avgPos : Option ℕ :=
      (searchCornerRun timeMarginPace.data).map
        (fun gs => (gs.map digitsToNat).sum / gs.length)
    match searchThreeF timeMarginPace.data with
    | none => .ok (avgPos, none)
    | some grp =>
      match pyFloatOfDigitsDots grp with
      | some q => .ok (avgPos, some q)
      | none => .error ()

/-- Leftmost match of the finish-position regex (digits immediately
followed by the kanji for finish place) in
pace_data_parser.calculate_running_style_stats.  Backtracking cannot
shorten the greedy digit run, because every proper prefix of the run is
followed by a digit. -/
def searchPosKanji : List Char → Option ℕ
  | [] => none
  | c :: cs =>
    let p := takeDigits (c :: cs)
    if p.1 ≠ [] ∧ p.2.head? = some '着' then some (digitsToNat p.1)
    else searchPosKanji cs

/-- Leftmost maximal digit run in a string (the regex of one or more
digits), as used to coerce string finish positions to integers. -/
def firstNatRun : List Char → Option ℕ
  | [] => none
  | c :: cs =>
    let p := takeDigits (c :: cs)
    if p.1 ≠ [] then some (digitsToNat p.1) else firstNatRun cs

/-- Gregorian leap year. -/
def isLeapYear (y : ℕ) : Bool := y % 4 = 0 && (y % 100 ≠ 0 || y % 400 = 0)

/-- Month lengths for a (non-)leap year. -/
def monthDays (leap : Bool) : List ℕ :=
  [31, if leap then 29 else 28, 31, 30, 31, 30, 31, 31, 30, 31, 30, 31]

/-- Number of days in a month of a year. -/
def daysInMonth (y m : ℕ) : ℕ := (monthDays (isLeapYear y)).getD (m - 1) 0

/-- Days in all years strictly before year y (proleptic Gregorian). -/
def daysBeforeYear (y : ℕ) : ℕ :=
  365 * (y - 1) + (y - 1) / 4 - (y - 1) / 100 + (y - 1) / 400

/-- Days in the months of year y strictly before month m. -/
def daysBeforeMonth (y m : ℕ) : ℕ := ((monthDays (isLeapYear y)).take (m - 1)).sum

/-- Proleptic-Gregorian ordinal of a calendar date, as
datetime.date.toordinal computes it. -/
def toOrdinal (y m d : ℕ) : ℤ := (daysBeforeYear y + daysBeforeMonth y m + d : ℕ)

/-- Split a character list on a separator character, keeping empty
segments, like str.split with an explicit separator. -/
def splitOnChar (sep : Char) : List Char → List (List Char)
  | [] => [[]]
  | c :: cs =>
    if c = sep then [] :: splitOnChar sep cs
    else
      match splitOnChar sep cs with
      | [] => [[c]]
      | g :: gs => (c :: g) :: gs

/-- Embedding of datetime.strptime with format year-month-day: three
dash-separated all-digit fields (year up to four digits, month and day up
to two), with calendar validation.  Returns the date ordinal; None models
the ValueError path. -/
def parseDate (s : String) : Option ℤ :=
  match splitOnChar '-' s.data with
  | [yl, ml, dl] =>
    if yl ≠ [] ∧ yl.length ≤ 4 ∧ yl.all Char.isDigit ∧
       ml ≠ [] ∧ ml.length ≤ 2 ∧ ml.all Char.isDigit ∧
       dl ≠ [] ∧ dl.length ≤ 2 ∧ dl.all Char.isDigit then
      let y := digitsToNat yl
      let m := digitsToNat ml
      let d := digitsToNat dl
      if 1 ≤ y ∧ 1 ≤ m ∧ m ≤ 12 ∧ 1 ≤ d ∧ d ≤ daysInMonth y m then
        some (toOrdinal y m d)
      else none
    else none
  | _ => none

/-- The five running styles of running_style_analyzer (escape, leading,
chase, pursue, unknown; in the source they are Japanese labels). -/
inductive RunStyle where
  | escape
  | leading
  | chase
  | pursue
  | unknown
deriving DecidableEq, Repr

/-- The three race-shape labels of running_style_analyzer (front favored,
closer favored, average; in the source they are Japanese labels). -/
inductive Pace where
  | front_favored
  | closer_favored
  | average
deriving DecidableEq, Repr

/-- Embedding of running_style_analyzer.determine_running_style.  The
escape branch tests Python truthiness of avg_pos, so the value zero (like
None) cannot yield escape. -/
def determineRunningStyle (frontCount closeCount : ℚ) (avgPos avgUp : Option ℚ) : RunStyle :=
  let _ := avgUp
  let total := frontCount + closeCount
  if total = 0 then .unknown
  else
    let frontShare := frontCount / total
    if frontShare ≥ 3 / 4 then
      match avgPos with
      | some x => if x ≠ 0 ∧ x ≤ 5 then .escape else .leading
      | none => .leading
    else if frontShare ≥ 2 / 5 then .leading
    else if frontShare ≥ 3 / 20 then .chase
    else .pursue

/-- Round half to even on the reals, as Python round() does on an exact
value.  Values with fractional part below one half go down, above one
half go up, and exact halves go to the even neighbour. -/
noncomputable def roundHalfEven (x : ℝ) : ℤ :=
  if Int.fract x < 1 / 2 then ⌊x⌋
  else if 1 / 2 < Int.fract x then ⌊x⌋ + 1
  else if Even ⌊x⌋ then ⌊x⌋ else ⌊x⌋ + 1

/-- Python round(x, d) on an exact value. -/
noncomputable def pyRoundTo (d : ℕ) (x : ℝ) : ℝ :=
  (roundHalfEven (x * 10 ^ d) : ℝ) / 10 ^ d

/-- Embedding of running_style_analyzer._calculate_z_scores: z-scores with
the population standard deviation of statistics.pstdev; if the deviation
is zero (or the list empty) all z-scores are zero. -/
noncomputable def zScores : List ℝ → List ℝ
  | [] => []
  | a :: t =>
    let values := a :: t
    let mu := values.sum / values.length
    let sigma := Real.sqrt ((values.map (fun v => (v - mu) ^ 2)).sum / values.length)
    if sigma = 0 then values.map (fun _ => 0)
    else values.map (fun v => (v - mu) / sigma)

/-- One entry of the horses list consumed by
RunningStyleAnalyzer.analyze: the per-horse style dictionary built in
HorseEvaluator.evaluate_horses (name from the horse record, counts and
optional averages from calculate_running_style_stats). -/
structure StyleHorse where
  name : Option String
  front_count : ℚ
  close_count : ℚ
  avg_pos : Option ℚ
  avg_up : Option ℚ
deriving DecidableEq, Repr

/-- Key used for the running_styles metadata map: the name if truthy,
else str of the num field with default empty string (the stats
dictionaries never carry a num key, so this is the empty string). -/
def nameKeyStyles (h : StyleHorse) : String :=
  match h.name with
  | some n => if n = "" then "" else n
  | none => ""

/-- Key used for the names list, the z-score maps and the adjustments
map: the name if truthy, else str of the absent num field, which Python
renders as the string None. -/
def nameKeyMaps (h : StyleHorse) : String :=
  match h.name with
  | some n => if n = "" then "None" else n
  | none => "None"

/-- Front-leaning feature of a horse in RunningStyleAnalyzer.analyze:
the raw front count plus a bonus from a truthy average finish position.
A zero average (like a missing one) contributes no bonus. -/
def frontFeature (h : StyleHorse) : ℚ :=
  h.front_count +
    match h.avg_pos with
    | some ap => if ap ≠ 0 then max 0 ((11 - ap) / 10) * (1 / 4) else 0
    | none => 0

/-- Close-leaning feature of a horse in RunningStyleAnalyzer.analyze:
the raw close count plus a bonus from a truthy average last-3-furlong
time.  A zero average (like a missing one) contributes no bonus. -/
def closeFeature (h : StyleHorse) : ℚ :=
  h.close_count +
    match h.avg_up with
    | some au => if au ≠ 0 then max 0 ((40 - au) / 6) * (3 / 5) else 0
    | none => 0

/-- Stable descending sort on a real-valued key, the model of
list.sort(key=..., reverse=True) and of sorted(..., reverse=True). -/
noncomputable def sortDescBy {α : Type} (key : α → ℝ) (l : List α) : List α :=
  @List.insertionSort α (fun a b => key b ≤ key a)
    (fun a b => Real.decidableLE (key b) (key a)) l

/-- Sum of the positive parts of the key over the top n elements by key,
as the top-sum expressions in RunningStyleAnalyzer.analyze compute it. -/
noncomputable def topPosSum {α : Type} (n : ℕ) (key : α → ℝ) (l : List α) : ℝ :=
  (((sortDescBy key l).take n).map (fun x => max 0 (key x))).sum

/-- Lookup in an association list built by repeated Python dict
assignment: the last binding of a key wins. -/
def lookupLast {β : Type} (l : List (String × β)) (k : String) : Option β :=
  match l with
  | [] => none
  | (a, v) :: rest =>
    match lookupLast rest k with
    | some w => some w
    | none => if a = k then some v else none

/-- Result of RunningStyleAnalyzer.analyze: the pace label, the
per-horse adjustment map, and the metadata the claims inspect (z-score
maps, style map, top sums; the source also rounds the top sums to three
decimals for display, which no claim touches). -/
structure AnalyzeResult where
  pace : Pace
  adjustments : List (String × ℝ)
  front_z : List (String × ℝ)
  close_z : List (String × ℝ)
  running_styles : List (String × RunStyle)
  front_top_sum : ℝ
  close_top_sum : ℝ

/-- Embedding of RunningStyleAnalyzer.analyze with constructor
parameters top_n, adjustment_scale and bias_threshold (defaults 3, 0.08
and 0.12; HorseEvaluator uses 2 and 0.10). -/
noncomputable def analyzeStyles (topN : ℕ) (scale bias : ℝ) (horses : List StyleHorse) :
    AnalyzeResult :=
  let styles := horses.map (fun h =>
    (nameKeyStyles h, determineRunningStyle h.front_count h.close_count h.avg_pos h.avg_up))
  let names := horses.map nameKeyMaps
  let frontZ := zScores ((horses.map frontFeature).map (fun q : ℚ => (q : ℝ)))
  let closeZ := zScores ((horses.map closeFeature).map (fun q : ℚ => (q : ℝ)))
  let frontZMap := names.zip frontZ
  let closeZMap := names.zip closeZ
  let paired := names.zip (frontZ.zip closeZ)
  let frontTop := topPosSum topN (fun p => p.2.1) paired
  let closeTop := topPosSum topN (fun p => p.2.2) paired
  let pace : Pace :=
    if frontTop > closeTop * (1 + bias) then .front_favored
    else if closeTop > frontTop * (1 + bias) then .closer_favored
    else .average
  let maxAdjustment := min (1 / 10 : ℝ) (scale * (5 / 4))
  let adjustments := names.map (fun nm =>
    let fz := (lookupLast frontZMap nm).getD 0
    let cz := (lookupLast closeZMap nm).getD 0
    let rawDiff : ℝ :=
      match pace with
      | .closer_favored => cz - fz
      | .front_favored => fz - cz
      | .average => 0
    (nm, pyRoundTo 4 (1 + max (-maxAdjustment) (min maxAdjustment (Real.tanh rawDiff * scale)))))
  ⟨pace, adjustments, frontZMap, closeZMap, styles, frontTop, closeTop⟩

/-- Decidable equality of Except values, for concrete evaluation of the
parser results. -/
instance {e a : Type} [DecidableEq e] [DecidableEq a] : DecidableEq (Except e a)
  | .ok x, .ok y =>
    match decEq x y with
    | isTrue h => isTrue (h ▸ rfl)
    | isFalse h => isFalse (fun hh => h (Except.ok.inj hh))
  | .error u, .error v =>
    match decEq u v with
    | isTrue h => isTrue (h ▸ rfl)
    | isFalse h => isFalse (fun hh => h (Except.error.inj hh))
  | .ok _, .error _ => isFalse (fun hh => Except.noConfusion hh)
  | .error _, .ok _ => isFalse (fun hh => Except.noConfusion hh)

/-- A Python value that may be an int or a string, as the finish, result,
weight and weight_change fields of the input dictionaries may be. -/
inductive IntStr where
  | int (n : ℤ)
  | str (s : String)
deriving DecidableEq, Repr

/-- A past race record of a horse, with every field optional as in the
source dictionaries. -/
structure PastRace where
  finish : Option IntStr
  result : Option IntStr
  runners : Option ℤ
  time_margin : Option ℚ
  distance : Option ℤ
  venue : Option String
  track : Option String
  track_condition : Option String
  date : Option String
  raceName : Option String
  raceClass : Option String
  time_margin_pace : Option String
  position_runners_pop : Option String
deriving DecidableEq, Repr

/-- An empty past race record (a Python dictionary with no keys). -/
def PastRace.empty : PastRace :=
  ⟨none, none, none, none, none, none, none, none, none, none, none, none, none⟩

/-- A horse entry of the race data.  The display-only fields that
_evaluate_horse merely copies into its output row (number, jockey,
popularity and the raw weight strings) do not influence any verified
claim and the copies are omitted from the output row model. -/
structure Horse where
  name : Option String
  number : Option ℤ
  odds : Option ℚ
  jockey : Option String
  weight : Option IntStr
  weight_change : Option IntStr
  recent_races : List PastRace
deriving DecidableEq, Repr

/-- A horse entry with no keys at all. -/
def Horse.empty : Horse := ⟨none, none, none, none, none, none, []⟩

/-- The race_info sub-dictionary of the race data. -/
structure RaceInfo where
  track : Option String
  track_condition : Option String
  date : Option String
  grade : Option String
deriving DecidableEq, Repr

/-- A race_info with no keys. -/
def RaceInfo.empty : RaceInfo := ⟨none, none, none, none⟩

/-- The race data record consumed by HorseEvaluator.evaluate_horses.
The distance key is read from the top level with default 2000. -/
structure RaceData where
  distance : Option ℤ
  race_info : RaceInfo
  horses : List Horse
deriving DecidableEq, Repr

/-- Coerce a finish or result value to an integer as the evaluator does:
an int is used as is, and from a string the leftmost digit run is taken,
with 18 when there is none. -/
def intOfIntStr (v : IntStr) : ℤ :=
  match v with
  | .int n => n
  | .str s =>
    match firstNatRun s.data with
    | some n => (n : ℤ)
    | none => 18

/-- The raw finish value of a race: the finish key, else the result key,
else 18 (the nested get default chain of the source). -/
def rawFinish (r : PastRace) : IntStr := r.finish.getD (r.result.getD (.int 18))

/-- Finish position used by _eval_past_performance and _eval_course_fit:
the finish key with result fallback, coerced to an integer. -/
def finishOf (r : PastRace) : ℤ := intOfIntStr (rawFinish r)

/-- Finish position used by the trend loop and _eval_track_condition:
only the result key, default 18, coerced to an integer. -/
def resultOf (r : PastRace) : ℤ := intOfIntStr (r.result.getD (.int 18))

/-- The recency weights of _eval_past_performance. -/
def pastWeights : List ℚ := [3 / 2, 6 / 5, 1, 4 / 5, 1 / 2]

/-- Score of one past race in _eval_past_performance, before the
nonnegativity clip and the recency weight. -/
def pastTermScore (r : PastRace) : ℚ :=
  let result := finishOf r
  let runners := r.runners.getD 16
  let margin := r.time_margin.getD 1
  if result = 1 then
    let base : ℚ := 100 + min 20 (margin * 5)
    if runners ≥ 16 then base * (6 / 5)
    else if runners ≤ 10 then base * (9 / 10)
    else base
  else
    max 30 (100 - ((result : ℚ) - 1) * 8) + max (-15) ((margin - 1 / 2) * (-3))

/-- Trend contribution of one adjacent pair of races (current against
previous) in _eval_past_performance: 15 when improving, minus 10 when
worsening. -/
def trendPair (current previous : PastRace) : ℚ :=
  if resultOf current < resultOf previous then 15
  else if resultOf current > resultOf previous then -10
  else 0

/-- Embedding of HorseEvaluator._eval_past_performance. -/
def evalPastPerformance (horse : Horse) : ℚ :=
  match horse.recent_races with
  | [] => 50
  | races@(_ :: _) =>
    let recent := races.take 5
    let scores := List.zipWith (fun r w => max 0 (pastTermScore r) * w) recent pastWeights
    let base0 := scores.sum / (pastWeights.take recent.length).sum
    let consecutiveWins := (races.takeWhile (fun r => rawFinish r = .int 1)).length
    let bonus : ℚ :=
      if consecutiveWins ≥ 3 then 15 else if consecutiveWins = 2 then 8 else 0
    let base := min 100 (base0 + bonus)
    let trend : ℚ :=
      match races with
      | a :: b :: c :: _ => trendPair b a + trendPair c b
      | _ => 0
    base * (7 / 10) + (50 + trend) * (3 / 10)

/-- Distance bonus of one past race in _eval_course_fit. -/
def distBonus (currentDist : ℤ) (r : PastRace) : ℚ :=
  if |r.distance.getD 0 - currentDist| ≤ 200 then
    if finishOf r ≤ 3 then 12 else if finishOf r ≤ 5 then 4 else 0
  else 0

/-- Venue bonus of one past race in _eval_course_fit. -/
def venueBonus (currentTrack : String) (r : PastRace) : ℚ :=
  if r.venue.getD (r.track.getD "") = currentTrack then
    if finishOf r ≤ 3 then 15 else if finishOf r ≤ 5 then 5 else 0
  else 0

/-- Embedding of HorseEvaluator._eval_course_fit. -/
def evalCourseFit (horse : Horse) (race : RaceData) : ℚ :=
  match horse.recent_races with
  | [] => 60
  | races@(_ :: _) =>
    let currentDist := race.distance.getD 2000
    let currentTrack := race.race_info.track.getD ""
    let distScore := min 100 (60 + ((races.take 5).map (distBonus currentDist)).sum)
    let trackScore := min 100 (60 + ((races.take 5).map (venueBonus currentTrack)).sum)
    distScore * (3 / 5) + trackScore * (2 / 5)

/-- Embedding of HorseEvaluator._eval_track_condition. -/
def evalTrackCondition (horse : Horse) (race : RaceData) : ℚ :=
  match horse.recent_races with
  | [] => 50
  | races@(_ :: _) =>
    let currentCondition := race.race_info.track_condition.getD "良"
    let sameCondition := (races.take 5).filterMap (fun r =>
      if r.track_condition.getD "" = currentCondition then some (resultOf r) else none)
    match sameCondition with
    | [] => 50
    | _ :: _ =>
      let avg : ℚ := ((sameCondition.map (fun n => (n : ℚ))).sum) / sameCondition.length
      max 0 (min 100 (100 - (avg - 1) * 10))

/-- Embedding of HorseEvaluator._eval_interval.  The race date string is
truthy (present and nonempty) or the score is 0; both dates must parse. -/
def evalInterval (horse : Horse) (race : RaceData) : ℚ :=
  match race.race_info.date with
  | none => 0
  | some raceDateStr =>
    if raceDateStr = "" then 0
    else
      match horse.recent_races with
      | [] => 0
      | lastRace :: _ =>
        match parseDate raceDateStr, parseDate (lastRace.date.getD "") with
        | some raceOrd, some lastOrd =>
          let days := raceOrd - lastOrd
          if 14 ≤ days ∧ days ≤ 42 then 15
          else if 7 ≤ days ∧ days ≤ 13 then -5
          else if 43 ≤ days ∧ days ≤ 84 then 0
          else -10
        | _, _ => 0

/-- Embedding of HorseEvaluator._eval_odds_value, taking the already
computed past and course scores.  The log damping for odds above 20 uses
the natural logarithm. -/
noncomputable def evalOddsValue (horse : Horse) (past course : ℚ) : ℝ :=
  let ability := (past + course) / 2
  let odds := horse.odds.getD 1
  if odds < 1 then 0
  else
    let abilityNorm := ability / 100
    let oddsFactor : ℝ :=
      if odds > 20 then 20 + Real.log ((odds : ℝ) / 20 + 1) * 5 else (odds : ℝ)
    let adjustedEv : ℝ := (abilityNorm : ℝ) * oddsFactor - 1
    let score : ℝ := max 0 (min 100 (50 + adjustedEv * 10))
    if abilityNorm < 3 / 10 ∧ odds > 30 then score * (1 / 2) else score

/-- Embedding of HorseEvaluator._eval_dark_horse.  The dark-horse store
is a function from horse name to the stored evaluation score (None for a
missing row or a missing score); a stored falsy score of zero falls back
to the odds buckets, as the truthiness test in the source does. -/
def evalDarkHorse (db : String → Option ℚ) (horse : Horse) : ℚ :=
  let fallback : ℚ :=
    let odds := horse.odds.getD 1
    if odds > 20 then 80 else if odds > 10 then 65 else 40
  match horse.name with
  | none => fallback
  | some nm =>
    match db nm with
    | some s => if s ≠ 0 then s else fallback
    | none => fallback

/-- Python int() applied to a stripped string: optional sign then one or
more ASCII digits. -/
def pyIntOfString (s : String) : Option ℤ :=
  let l := s.trim.data
  match l with
  | '-' :: rest => if rest ≠ [] ∧ rest.all Char.isDigit then some (-(digitsToNat rest : ℤ)) else none
  | '+' :: rest => if rest ≠ [] ∧ rest.all Char.isDigit then some ((digitsToNat rest : ℤ)) else none
  | _ => if l ≠ [] ∧ l.all Char.isDigit then some ((digitsToNat l : ℤ)) else none

/-- Body of HorseEvaluator._eval_weight_change once a numeric bodyweight
has been parsed: the weight and weight-change brackets, the rest relief
measured from today (the ordinal date of datetime.now()), and the final
clip to the interval from 0 to 100. -/
def weightScoreOf (today : ℤ) (horse : Horse) (weight : ℤ) : ℚ :=
  let wc : ℤ :=
    match horse.weight_change.getD (.int 0) with
    | .int n => n
    | .str s => (pyIntOfString (((s.replace "+" "").replace "kg" "").trim)).getD 0
  let score1 : ℚ :=
    (50 : ℚ) +
      (if 450 ≤ weight ∧ weight ≤ 520 then 10
       else if weight < 420 ∨ weight > 550 then -10 else 0)
  let score2 : ℚ :=
    score1 +
      (if -3 ≤ wc ∧ wc ≤ 3 then 20
       else if -8 ≤ wc ∧ wc < -3 then 10
       else if 3 < wc ∧ wc ≤ 8 then 5
       else if wc < -15 then -15
       else if wc > 15 then -20
       else if -15 ≤ wc ∧ wc < -8 then -5
       else if 8 < wc ∧ wc ≤ 15 then -10
       else 0)
  let score3 : ℚ :=
    match horse.recent_races with
    | [] => score2
    | lastRace :: _ =>
      match lastRace.date with
      | none => score2
      | some dateStr =>
        if dateStr = "" then score2
        else
          match parseDate dateStr with
          | none => score2
          | some lastOrd =>
            if today - lastOrd > 60 ∧ 0 ≤ wc ∧ wc ≤ 20 then score2 + 5 else score2
  max 0 (min 100 score3)

/-- Embedding of HorseEvaluator._eval_weight_change.  The parameter
today is the ordinal date of datetime.now(): the source compares the
wall clock, not the race date, against the last race date for the
rest-relief rule. -/
def evalWeightChange (today : ℤ) (horse : Horse) : ℚ :=
  let weightVal := horse.weight.getD (.int 0)
  if weightVal = .int 0 ∨ weightVal = .str "?" then 50
  else
    let weightParsed : Option ℤ :=
      match weightVal with
      | .int n => some n
      | .str s => pyIntOfString ((s.replace "kg" "").trim)
    match weightParsed with
    | none => 50
    | some weight => weightScoreOf today horse weight

/-- Whether pat starts the character list hay. -/
def startsWithChars : List Char → List Char → Bool
  | _, [] => true
  | [], _ :: _ => false
  | a :: as, b :: bs => a = b && startsWithChars as bs

/-- Python substring containment (the in operator on strings) on
character lists. -/
def containsChars (pat : List Char) : List Char → Bool
  | [] => pat.isEmpty
  | c :: cs => startsWithChars (c :: cs) pat || containsChars pat cs

/-- Python substring containment on strings: pat occurs in hay. -/
def containsSub (hay pat : String) : Bool := containsChars pat.data hay.data

/-- The ordered grade table of _eval_class_penalty (Python dicts keep
insertion order, and the level search takes the first matching entry;
note the grade-one label is a substring of the grade-two and grade-three
labels). -/
def gradeLevels : List (String × ℤ) :=
  [("GI", 5), ("GII", 4), ("GIII", 3), ("OP", 2), ("3勝", 1), ("2勝", 0), ("1勝", -1)]

/-- Embedding of HorseEvaluator._eval_class_penalty. -/
def evalClassPenalty (horse : Horse) (race : RaceData) : ℚ :=
  match horse.recent_races with
  | [] => 0
  | lastRace :: _ =>
    let currentGrade := race.race_info.grade.getD ""
    let currentLevel : ℤ := ((gradeLevels.lookup currentGrade).getD 2)
    let lastName := lastRace.raceName.getD ""
    let lastClass := lastRace.raceClass.getD ""
    let lastLevel : ℤ :=
      match gradeLevels.find? (fun p => containsSub lastName p.1 || containsSub lastClass p.1) with
      | some p => p.2
      | none => 2
    let levelDiff := currentLevel - lastLevel
    if levelDiff ≤ 0 then 0
    else if levelDiff = 1 then -5
    else if levelDiff = 2 then -10
    else -15

/-- A weight profile of the evaluator. -/
structure Weights where
  past_performance : ℚ
  course_fit : ℚ
  track_condition : ℚ
  weight_change : ℚ
  interval : ℚ
  odds_value : ℚ
  dark_horse : ℚ
  apply_class_penalty : Bool
deriving DecidableEq, Repr

/-- The ability profile of HorseEvaluator (with class penalty). -/
def abilityWeights : Weights :=
  ⟨25 / 100, 25 / 100, 10 / 100, 3 / 100, 7 / 100, 18 / 100, 12 / 100, true⟩

/-- The value profile of HorseEvaluator (without class penalty). -/
def valueWeights : Weights :=
  ⟨22 / 100, 23 / 100, 8 / 100, 2 / 100, 7 / 100, 23 / 100, 15 / 100, false⟩

/-- The output row of HorseEvaluator._evaluate_horse, restricted to the
computed fields (the row also echoes input fields, which no claim
inspects). -/
structure EvalRow where
  name : String
  final_score : ℝ
  performance_score : ℝ
  course_fit_score : ℝ
  track_condition_score : ℝ
  weight_change_score : ℝ
  interval_score : ℝ
  odds_value_score : ℝ
  dark_horse_score : ℝ
  class_penalty : ℝ

/-- Embedding of HorseEvaluator._evaluate_horse. -/
noncomputable def evaluateHorse (today : ℤ) (db : String → Option ℚ) (horse : Horse)
    (race : RaceData) (weights : Weights) (adjustment : ℝ) : EvalRow :=
  let past := evalPastPerformance horse
  let course := evalCourseFit horse race
  let track := evalTrackCondition horse race
  let weightChangeScore := evalWeightChange today horse
  let intervalScore := evalInterval horse race
  let oddsScore := evalOddsValue horse past course
  let darkScore := evalDarkHorse db horse
  let classPenalty : ℚ := if weights.apply_class_penalty then evalClassPenalty horse race else 0
  let finalBase : ℝ :=
    (past * weights.past_performance : ℚ) + (course * weights.course_fit : ℚ) +
      (track * weights.track_condition : ℚ) +
      (weightChangeScore * weights.weight_change : ℚ) +
      (intervalScore * weights.interval : ℚ) + oddsScore * (weights.odds_value : ℝ) +
      (darkScore * weights.dark_horse : ℚ) + (classPenalty : ℝ)
  let final := finalBase * adjustment
  { name := horse.name.getD "不明"
    final_score := pyRoundTo 2 final
    performance_score := pyRoundTo 1 (past : ℝ)
    course_fit_score := pyRoundTo 1 (course : ℝ)
    track_condition_score := pyRoundTo 1 (track : ℝ)
    weight_change_score := pyRoundTo 1 (weightChangeScore : ℝ)
    interval_score := pyRoundTo 1 (intervalScore : ℝ)
    odds_value_score := pyRoundTo 1 oddsScore
    dark_horse_score := pyRoundTo 1 (darkScore : ℝ)
    class_penalty := pyRoundTo 1 (classPenalty : ℝ) }

/-- The statistics dictionary of
pace_data_parser.calculate_running_style_stats. -/
structure StyleStats where
  front_count : ℕ
  close_count : ℕ
  avg_up : Option ℚ
  avg_pos : Option ℚ
deriving DecidableEq, Repr

/-- Accumulation pass of calculate_running_style_stats over the races in
order: front count, close count, the parsed last-3-furlong times and the
parsed finish positions.  A parse error propagates from the first race
that raises. -/
def statsLoop : List PastRace → Except Unit (ℕ × ℕ × List ℚ × List ℕ)
  | [] => .ok (0, 0, [], [])
  | r :: rs => do
    let parsed ← parsePaceData (r.time_margin_pace.getD "")
    let rest ← statsLoop rs
    let fronts :=
      match parsed.1 with
      | some cp => if cp ≤ 5 then rest.1 + 1 else rest.1
      | none => rest.1
    let closes :=
      match parsed.1 with
      | some cp => if cp ≤ 5 then rest.2.1 else rest.2.1 + 1
      | none => rest.2.1
    let ups :=
      match parsed.2 with
      | some f3 => f3 :: rest.2.2.1
      | none => rest.2.2.1
    let poss :=
      match searchPosKanji ((r.position_runners_pop.getD "").data) with
      | some p => p :: rest.2.2.2
      | none => rest.2.2.2
    .ok (fronts, closes, ups, poss)

/-- Embedding of pace_data_parser.calculate_running_style_stats (on the
five most recent races). -/
def calcRunningStyleStats (recentRaces : List PastRace) : Except Unit StyleStats := do
  let acc ← statsLoop (recentRaces.take 5)
  let ups := acc.2.2.1
  let poss := acc.2.2.2
  .ok
    { front_count := acc.1
      close_count := acc.2.1
      avg_up := match ups with
        | [] => none
        | _ :: _ => some (ups.sum / ups.length)
      avg_pos := match poss with
        | [] => none
        | _ :: _ => some ((poss.map (fun n => (n : ℚ))).sum / poss.length) }

/-- The pace_analysis entry of the evaluate_horses output. -/
structure PaceAnalysis where
  pace : Pace
  adjustments : List (String × ℝ)

/-- The output of HorseEvaluator.evaluate_horses.  The early return for
an empty horse list builds a dictionary without a pace_analysis key,
which the Option models. -/
structure EvalOutput where
  ability_results : List EvalRow
  value_results : List EvalRow
  pace_analysis : Option PaceAnalysis

/-- Embedding of HorseEvaluator.evaluate_horses.  The two thread-pool
maps preserve input order, so they are list maps; each result list is
then sorted descending by final score.  A parse error raised while
building the style statistics propagates. -/
noncomputable def evaluateHorses (today : ℤ) (db : String → Option ℚ) (race : RaceData) :
    Except Unit EvalOutput :=
  match race.horses with
  | [] => .ok ⟨[], [], none⟩
  | _ :: _ =>
    match (race.horses.filter (fun h => !h.recent_races.isEmpty)).mapM (fun h =>
        (calcRunningStyleStats h.recent_races).map (fun st =>
          (⟨h.name, (st.front_count : ℚ), (st.close_count : ℚ), st.avg_pos, st.avg_up⟩ :
            StyleHorse))) with
    | .error e => .error e
    | .ok stats =>
      let ar := analyzeStyles 2 (1 / 10) (12 / 100) stats
      let adjustmentOf : Horse → ℝ := fun h =>
        match h.name with
        | some n => (lookupLast ar.adjustments n).getD 1
        | none => 1
      let abilityRows := race.horses.map (fun h =>
        evaluateHorse today db h race abilityWeights (adjustmentOf h))
      let valueRows := race.horses.map (fun h =>
        evaluateHorse today db h race valueWeights (adjustmentOf h))
      .ok ⟨sortDescBy (fun row => row.final_score) abilityRows,
           sortDescBy (fun row => row.final_score) valueRows,
           some ⟨ar.pace, ar.adjustments⟩⟩

/-- Embedding of the module-level utils.validate_horse_data: the three
required keys must be present, the number must lie in 1..20 and the odds
in 0.1..999. -/
def validateHorseData (horse : Horse) : Bool :=
  horse.number.isSome && horse.name.isSome && horse.odds.isSome &&
    decide (1 ≤ horse.number.getD 0 ∧ horse.number.getD 0 ≤ 20) &&
    decide ((1 : ℚ) / 10 ≤ horse.odds.getD 0 ∧ horse.odds.getD 0 ≤ 999)

/-- Embedding of utils.clean_horse_data.  No caller in the repository
invokes it; in particular evaluate_horses does not. -/
def cleanHorseData (horses : List Horse) : List Horse := horses.filter validateHorseData

/-- The descending sort is a permutation of its input. -/
theorem sortDescBy_perm {α : Type} (key : α → ℝ) (l : List α) :
    (sortDescBy key l).Perm l := by
  unfold sortDescBy
  exact List.perm_insertionSort _ l

/-- The descending sort preserves length. -/
theorem length_sortDescBy {α : Type} (key : α → ℝ) (l : List α) :
    (sortDescBy key l).length = l.length :=
  (sortDescBy_perm key l).length_eq

/-- The descending sort is sorted: keys are nonincreasing. -/
theorem sorted_sortDescBy {α : Type} (key : α → ℝ) (l : List α) :
    (sortDescBy key l).Sorted (fun a b => key b ≤ key a) := by
  unfold sortDescBy
  letI : DecidableRel (fun (a b : α) => key b ≤ key a) :=
    fun a b => Real.decidableLE (key b) (key a)
  haveI : IsTotal α (fun a b => key b ≤ key a) := ⟨fun a b => le_total (key b) (key a)⟩
  haveI : IsTrans α (fun a b => key b ≤ key a) :=
    ⟨fun _ _ _ hab hbc => le_trans hbc hab⟩
  exact List.sorted_insertionSort _ l

/-- On a descending-sorted list whose count of strictly positive keys is
at most n, summing the positive parts of the first n keys equals summing
them over the whole list. -/
theorem take_posPart_sum {α : Type} (key : α → ℝ) :
    ∀ (s : List α) (n : ℕ), s.Sorted (fun a b => key b ≤ key a) →
      s.countP (fun x => decide (0 < key x)) ≤ n →
      ((s.take n).map (fun x => max 0 (key x))).sum = (s.map (fun x => max 0 (key x))).sum := by
  intro s
  induction s with
  | nil => intro n _ _; simp
  | cons x t ih =>
    intro n hsort hcount
    match n with
    | 0 =>
      have hall : ∀ y ∈ x :: t, max 0 (key y) = 0 := by
        intro y hy
        have hy' : ¬ 0 < key y := by
          by_contra hpos
          have h1 : 0 < (x :: t).countP (fun z => decide (0 < key z)) :=
            List.countP_pos_iff.mpr ⟨y, hy, by simpa using hpos⟩
          omega
        simp [max_eq_left (le_of_not_lt hy')]
      rw [List.take_zero]
      symm
      simpa using List.sum_eq_zero (by
        intro z hz
        obtain ⟨y, hy, rfl⟩ := List.mem_map.mp hz
        exact hall y hy)
    | n + 1 =>
      have hsort' := (List.sorted_cons.mp hsort)
      have hrec : t.countP (fun z => decide (0 < key z)) ≤ n := by
        by_cases hx : 0 < key x
        · have : (x :: t).countP (fun z => decide (0 < key z)) =
              t.countP (fun z => decide (0 < key z)) + 1 := by
            rw [List.countP_cons]
            simp [hx]
          omega
        · have : t.countP (fun z => decide (0 < key z)) = 0 := by
            rw [List.countP_eq_zero]
            intro y hy
            have : key y ≤ key x := hsort'.1 y hy
            simp only [decide_eq_true_eq]
            exact not_lt.mpr (this.trans (le_of_not_lt hx))
          omega
      simp only [List.take_succ_cons, List.map_cons, List.sum_cons]
      rw [ih n hsort'.2 hrec]

/-- The top-n positive-part sum equals the positive-part sum over the
whole list when at most n keys are strictly positive. -/
theorem topPosSum_eq_total {α : Type} (n : ℕ) (key : α → ℝ) (l : List α)
    (h : l.countP (fun x => decide (0 < key x)) ≤ n) :
    topPosSum n key l = (l.map (fun x => max 0 (key x))).sum := by
  unfold topPosSum
  rw [take_posPart_sum key (sortDescBy key l) n (sorted_sortDescBy key l)
    (by rwa [(sortDescBy_perm key l).countP_eq])]
  exact ((sortDescBy_perm key l).map (fun x => max 0 (key x))).sum_eq

/-- The top-n positive-part sum of a list of nonpositive keys is zero. -/
theorem topPosSum_eq_zero {α : Type} (n : ℕ) (key : α → ℝ) (l : List α)
    (h : ∀ x ∈ l, key x ≤ 0) : topPosSum n key l = 0 := by
  rw [topPosSum_eq_total n key l (by
    have : l.countP (fun x => decide (0 < key x)) = 0 := by
      rw [List.countP_eq_zero]
      intro y hy
      simpa using not_lt.mpr (h y hy)
    omega)]
  apply List.sum_eq_zero
  intro z hz
  obtain ⟨y, hy, rfl⟩ := List.mem_map.mp hz
  exact max_eq_left (h y hy)

/-- The top-n positive-part sum is nonnegative. -/
theorem topPosSum_nonneg {α : Type} (n : ℕ) (key : α → ℝ) (l : List α) :
    0 ≤ topPosSum n key l := by
  unfold topPosSum
  apply List.sum_nonneg
  intro z hz
  obtain ⟨y, _, rfl⟩ := List.mem_map.mp hz
  exact le_max_left 0 (key y)

/-- The z-scores of a constant list are all zero (the degenerate branch
of the population standard deviation). -/
theorem zScores_const (l : List ℝ) (c : ℝ) (h : ∀ x ∈ l, x = c) :
    zScores l = l.map (fun _ => 0) := by
  match l with
  | [] => rfl
  | a :: t =>
    have hlen : ((a :: t).length : ℝ) ≠ 0 := Nat.cast_ne_zero.mpr (Nat.succ_ne_zero t.length)
    have hsum : (a :: t).sum = ((a :: t).length : ℝ) * c := by
      rw [List.sum_eq_card_nsmul (a :: t) c h, nsmul_eq_mul]
    have hmu : (a :: t).sum / ((a :: t).length : ℝ) = c := by
      rw [hsum, mul_div_cancel_left₀ c hlen]
    have hdev : ((a :: t).map (fun v => (v - (a :: t).sum / ((a :: t).length : ℝ)) ^ 2)).sum = 0 := by
      apply List.sum_eq_zero
      intro z hz
      obtain ⟨y, hy, rfl⟩ := List.mem_map.mp hz
      rw [hmu, h y hy, sub_self]
      ring
    simp only [zScores]
    rw [hdev]
    simp [Real.sqrt_zero]

/-- Half-even rounding moves a value by at most one half. -/
theorem roundHalfEven_bounds (z : ℝ) :
    z - 1 / 2 ≤ (roundHalfEven z : ℝ) ∧ (roundHalfEven z : ℝ) ≤ z + 1 / 2 := by
  have hfr := Int.fract_nonneg z
  have hfr1 := Int.fract_lt_one z
  have hfl : (⌊z⌋ : ℝ) = z - Int.fract z := by
    rw [Int.self_sub_fract]
  unfold roundHalfEven
  split_ifs with h1 h2 h3 <;>
    simp only [Int.cast_add, Int.cast_one, hfl] <;> constructor <;> linarith

/-- Half-even rounding lies between floor and ceiling. -/
theorem roundHalfEven_mem_floor_ceil (z : ℝ) :
    ⌊z⌋ ≤ roundHalfEven z ∧ roundHalfEven z ≤ ⌈z⌉ := by
  have hceil : (1 : ℝ) / 2 ≤ Int.fract z → ⌊z⌋ + 1 ≤ ⌈z⌉ := by
    intro hhalf
    have hpos : 0 < Int.fract z := lt_of_lt_of_le (by norm_num) hhalf
    have hflt : (⌊z⌋ : ℝ) < z := by
      have hfl : (⌊z⌋ : ℝ) = z - Int.fract z := by rw [Int.self_sub_fract]
      linarith
    have hlt : (⌊z⌋ : ℝ) < (⌈z⌉ : ℝ) := lt_of_lt_of_le hflt (Int.le_ceil z)
    exact Int.add_one_le_iff.mpr (by exact_mod_cast hlt)
  unfold roundHalfEven
  split_ifs with h1 h2 h3
  · exact ⟨le_refl _, Int.floor_le_ceil z⟩
  · exact ⟨by omega, hceil (le_of_lt h2)⟩
  · exact ⟨le_refl _, Int.floor_le_ceil z⟩
  · exact ⟨by omega, hceil (not_lt.mp h1)⟩

/-- A horse with weight 480, weight change plus 10 and a last race on the
first of January 2025, used to exhibit the wall-clock dependence. -/
def horseWeightFlip : Horse :=
  { name := some "A", number := some 1, odds := some 5, jockey := none,
    weight := some (.int 480), weight_change := some (.int 10),
    recent_races := [{ PastRace.empty with date := some "2025-01-01" }] }

/-- C1: the spec claims evaluate_horses is a pure function of the
(RaceRecord, HorseEntry) snapshot with no dependence on hidden state or
the wall clock.  The code contradicts it: _eval_weight_change measures
the rest interval from datetime.now(), so the identical horse record
scores 50 when the wall-clock date is 2025-02-01 (ordinal 739283, a
31-day gap, no rest relief) and 55 when it is 2025-04-01 (ordinal
739342, a 90-day gap, plus 5 rest relief).  The last conjunct fixes the
ordinal of the race date in this model. -/
theorem evalWeightChange_wall_clock_dependent :
    evalWeightChange 739283 horseWeightFlip = 50 ∧
    evalWeightChange 739342 horseWeightFlip = 55 ∧
    parseDate "2025-01-01" = some 739252 := by
  have hpd : parseDate "2025-01-01" = some 739252 := by decide
  have h1 : IntStr.int 480 ≠ IntStr.str "?" := by decide
  have h2 : ("2025-01-01" : String) ≠ "" := by decide
  refine ⟨?_, ?_, hpd⟩ <;>
    norm_num [evalWeightChange, weightScoreOf, horseWeightFlip, PastRace.empty, hpd, h1, h2,
      min_def, max_def]

/-- C2 counterexample: parse_pace_data is claimed never to raise, but on
the token with a doubly dotted 3F group the captured group is not a
valid float literal and float() raises a ValueError, modelled by the
error case. -/
theorem parsePaceData_error_on_malformed_float :
    parsePaceData "3F 1.2.3" = .error () := by rfl

/-- C2 amended: parse_pace_data raises exactly when the 3F regex matches
and the captured digits-and-dots group is not a valid float literal (at
least two dots or no digit); on every other token it returns a pair with
None components as degradation. -/
theorem parsePaceData_error_iff_bad_float_group (s : String) :
    parsePaceData s = .error () ↔
      ∃ g, searchThreeF s.data = some g ∧ pyFloatOfDigitsDots g = none := by
  unfold parsePaceData
  by_cases hs : s = ""
  · subst hs
    simp [searchThreeF, show ("" : String).data = [] from rfl]
  · simp only [hs, if_false]
    cases h3 : searchThreeF s.data with
    | none => simp [h3]
    | some g =>
      cases hf : pyFloatOfDigitsDots g with
      | none => simp [h3, hf]
      | some q => simp [h3, hf]

/-- C4 counterexample: on an empty horse list evaluate_horses returns a
dictionary with only the two empty result lists; it has no pace_analysis
key, contrary to the claimed output shape. -/
theorem evaluateHorses_empty_omits_pace_analysis :
    evaluateHorses 0 (fun _ => none)
      { distance := none, race_info := RaceInfo.empty, horses := [] } =
      .ok { ability_results := [], value_results := [], pace_analysis := none } := by rfl

/-- C4 amended: on an empty horse list evaluate_horses returns, without
raising, the explicit empty-result value with ability_results and
value_results both empty and no pace_analysis entry. -/
theorem evaluateHorses_empty_sentinel (today : ℤ) (db : String → Option ℚ)
    (d : Option ℤ) (ri : RaceInfo) :
    evaluateHorses today db { distance := d, race_info := ri, horses := [] } =
      .ok { ability_results := [], value_results := [], pace_analysis := none } := rfl

/-- C5 counterexample: with front count 3 and close count 1 the front
share is exactly three quarters and the average position 0.0 is known
(present) and at most 5, so the claim requires escape; the code tests
Python truthiness of the average position, 0.0 is falsy, and the result
is leading. -/
theorem determineRunningStyle_threshold_zero_avg_pos :
    determineRunningStyle 3 1 (some 0) none = .leading ∧
    RunStyle.leading ≠ RunStyle.escape := by
  refine ⟨?_, by decide⟩
  norm_num [determineRunningStyle]

/-- C5 amended: the decision table of determine_running_style with the
boundary inclusivities of the source, where the escape branch requires
the average position to be truthy (present and nonzero) besides being at
most 5: share at least three quarters gives escape or leading, at least
two fifths gives leading, at least three twentieths gives chase, below
that pursue, and an empty record gives unknown. -/
theorem determineRunningStyle_decision_table (fc cc : ℚ) (ap au : Option ℚ) :
    (fc + cc = 0 → determineRunningStyle fc cc ap au = .unknown) ∧
    (fc + cc ≠ 0 →
      (fc / (fc + cc) ≥ 3 / 4 →
        ((∃ x, ap = some x ∧ x ≠ 0 ∧ x ≤ 5) → determineRunningStyle fc cc ap au = .escape) ∧
        (¬ (∃ x, ap = some x ∧ x ≠ 0 ∧ x ≤ 5) → determineRunningStyle fc cc ap au = .leading)) ∧
      (2 / 5 ≤ fc / (fc + cc) ∧ fc / (fc + cc) < 3 / 4 →
        determineRunningStyle fc cc ap au = .leading) ∧
      (3 / 20 ≤ fc / (fc + cc) ∧ fc / (fc + cc) < 2 / 5 →
        determineRunningStyle fc cc ap au = .chase) ∧
      (fc / (fc + cc) < 3 / 20 → determineRunningStyle fc cc ap au = .pursue)) := by
  unfold determineRunningStyle
  refine ⟨fun h0 => by simp [h0], fun h0 => ?_⟩
  simp only [h0, if_false]
  refine ⟨fun hge => ⟨fun hex => ?_, fun hnex => ?_⟩, fun hmid => ?_, fun hlow => ?_,
    fun hbot => ?_⟩
  · obtain ⟨x, hx, hx0, hx5⟩ := hex
    simp [hge, hx, hx0, hx5]
  · rw [if_pos hge]
    cases hap : ap with
    | none => rfl
    | some x =>
      show (if x ≠ 0 ∧ x ≤ 5 then RunStyle.escape else RunStyle.leading) = RunStyle.leading
      rw [if_neg]
      intro hcontra
      exact hnex ⟨x, hap, hcontra⟩
  · rw [if_neg (not_le.mpr hmid.2), if_pos hmid.1]
  · rw [if_neg (not_le.mpr (lt_trans hlow.2 (by norm_num : (2 : ℚ) / 5 < 3 / 4))),
      if_neg (not_le.mpr hlow.2), if_pos hlow.1]
  · rw [if_neg (not_le.mpr (lt_trans hbot (by norm_num : (3 : ℚ) / 20 < 3 / 4))),
      if_neg (not_le.mpr (lt_trans hbot (by norm_num : (3 : ℚ) / 20 < 2 / 5))),
      if_neg (not_le.mpr hbot)]

/-- Witness for the decision table at the four boundary shares and the
empty record. -/
theorem determineRunningStyle_decision_table_witness :
    determineRunningStyle 3 1 (some 4) none = .escape ∧
    determineRunningStyle 3 1 none none = .leading ∧
    determineRunningStyle 2 3 none none = .leading ∧
    determineRunningStyle 3 17 none none = .chase ∧
    determineRunningStyle 1 9 none none = .pursue ∧
    determineRunningStyle 0 0 none none = .unknown :=
  ⟨(((determineRunningStyle_decision_table 3 1 (some 4) none).2 (by norm_num)).1
      (by norm_num)).1 ⟨4, rfl, by norm_num, by norm_num⟩,
   (((determineRunningStyle_decision_table 3 1 none none).2 (by norm_num)).1
      (by norm_num)).2 (by rintro ⟨x, hx, -⟩; cases hx),
   ((determineRunningStyle_decision_table 2 3 none none).2 (by norm_num)).2.1
      (by norm_num),
   ((determineRunningStyle_decision_table 3 17 none none).2 (by norm_num)).2.2.1
      (by norm_num),
   ((determineRunningStyle_decision_table 1 9 none none).2 (by norm_num)).2.2.2
      (by norm_num),
   (determineRunningStyle_decision_table 0 0 none none).1 (by norm_num)⟩

/-- C6 counterexample: on the corner run one, two, three, five the mean
is 2.75; rounding to the nearest integer gives 3, but the parser applies
int() truncation and returns 2. -/
theorem parsePaceData_truncates_corner_mean :
    parsePaceData "1-2-3-5" = .ok (some 2, none) ∧
    round ((1 + 2 + 3 + 5 : ℚ) / 4) = 3 ∧ (2 : ℤ) ≠ 3 :=
  ⟨by rfl, by norm_num [round_eq], by decide⟩

/-- C6 amended: the first component of parse_pace_data is the integer
part (floor, equal to truncation for these nonnegative values) of the
mean of the extracted corner run, not the nearest integer; on the
documented example the result is the pair of 3 and 33.8, where floor and
nearest agree. -/
theorem parsePaceData_corner_mean_floor :
    parsePaceData "1:59.3 3-3-4 3F 33.8" = .ok (some 3, some (169 / 5)) ∧
    ∀ s gs res, searchCornerRun s.data = some gs → parsePaceData s = .ok res →
      res.1 = some ((gs.map digitsToNat).sum / gs.length) := by
  constructor
  · have e1 : parsePaceData "1:59.3 3-3-4 3F 33.8" =
        .ok (some 3, some (((33 : ℕ) : ℚ) + ((8 : ℕ) : ℚ) / 10 ^ (1 : ℕ))) := by rfl
    rw [e1]
    simp only [Except.ok.injEq, Option.some.injEq, Prod.mk.injEq, true_and]
    push_cast
    norm_num
  · intro s gs res hrun hok
    unfold parsePaceData at hok
    split at hok
    · rename_i hs
      subst hs
      rw [show ("" : String).data = [] from rfl] at hrun
      cases hrun
    · split at hok
      · cases hok
        rw [hrun]
        rfl
      · split at hok
        · cases hok
          rw [hrun]
          rfl
        · cases hok

/-- Witness for the floor behaviour at the run one, two, three, five,
whose mean 2.75 floors to 2. -/
theorem parsePaceData_corner_mean_floor_witness :
    parsePaceData "1-2-3-5" = .ok (some 2, none) ∧
    (some 2 : Option ℕ) =
      some ((([['1'], ['2'], ['3'], ['5']] : List (List Char)).map digitsToNat).sum /
        ([['1'], ['2'], ['3'], ['5']] : List (List Char)).length) :=
  ⟨by rfl,
   parsePaceData_corner_mean_floor.2 "1-2-3-5" [['1'], ['2'], ['3'], ['5']]
     (some 2, none) (by decide) (by rfl)⟩

/-- A horse whose only recorded race is nine days before the race date
of raceJuneTenth. -/
def horseNineDayGap : Horse :=
  { Horse.empty with recent_races := [{ PastRace.empty with date := some "2025-06-01" }] }

/-- A race on the tenth of June 2025 with no horses listed. -/
def raceJuneTenth : RaceData :=
  { distance := none, race_info := { RaceInfo.empty with date := some "2025-06-10" },
    horses := [] }

/-- C8 counterexample: the interval sub-score of a nine-day gap is minus
5, outside the claimed range from 0 to 100. -/
theorem evalInterval_score_below_range :
    evalInterval horseNineDayGap raceJuneTenth = -5 ∧ ¬ (0 ≤ (-5 : ℚ)) :=
  ⟨by rfl, by norm_num⟩

/-- C9 counterexample: a horse entry with no keys at all fails the
required-key validation and clean_horse_data would drop it, yet
evaluate_horses evaluates it and returns one ranked row for it in both
lists instead of excluding it. -/
theorem evaluateHorses_keeps_invalid_entry :
    validateHorseData Horse.empty = false ∧
    cleanHorseData [Horse.empty] = [] ∧
    (evaluateHorses 0 (fun _ => none)
        { distance := none, race_info := RaceInfo.empty, horses := [Horse.empty] }).map
      (fun out => (out.ability_results.length, out.value_results.length)) = .ok (1, 1) :=
  ⟨by rfl, by rfl, by rfl⟩

/-- C9 amended: evaluate_horses performs no structural validation and
excludes nothing: whenever it returns a result, both ranked lists have
exactly one row per input horse entry, valid or not.  The validation
helpers validate_horse_data and clean_horse_data exist in utils but are
called from nowhere in the repository. -/
theorem evaluateHorses_result_lengths (today : ℤ) (db : String → Option ℚ)
    (race : RaceData) (out : EvalOutput) (hok : evaluateHorses today db race = .ok out) :
    out.ability_results.length = race.horses.length ∧
    out.value_results.length = race.horses.length := by
  unfold evaluateHorses at hok
  split at hok
  · rename_i hnil
    cases hok
    simp [hnil]
  · split at hok
    · cases hok
    · cases hok
      constructor <;> rw [length_sortDescBy, List.length_map]

/-- Witness for the length preservation at a race with an empty horse
list. -/
theorem evaluateHorses_result_lengths_witness :
    ([] : List EvalRow).length =
      ({ distance := none, race_info := RaceInfo.empty, horses := [] } : RaceData).horses.length :=
  (evaluateHorses_result_lengths 0 (fun _ => none)
    { distance := none, race_info := RaceInfo.empty, horses := [] }
    { ability_results := [], value_results := [], pace_analysis := none } rfl).1

/-- C10: a zero value of an optional feature is treated like a missing
one.  determine_running_style with average position zero never returns
escape and returns leading on a front share of at least three quarters,
and in the analyzer a zero average position or zero average closing time
contributes no feature bonus, the feature being exactly the raw count. -/
theorem zero_optional_features_no_effect (fc cc : ℚ) (au : Option ℚ) (h : StyleHorse) :
    determineRunningStyle fc cc (some 0) au ≠ .escape ∧
    (fc + cc ≠ 0 → fc / (fc + cc) ≥ 3 / 4 →
      determineRunningStyle fc cc (some 0) au = .leading) ∧
    (h.avg_pos = some 0 → frontFeature h = h.front_count) ∧
    (h.avg_up = some 0 → closeFeature h = h.close_count) := by
  refine ⟨?_, ?_, ?_, ?_⟩
  · unfold determineRunningStyle
    by_cases h0 : fc + cc = 0
    · simp [h0]
    · rw [if_neg h0]
      by_cases hge : fc / (fc + cc) ≥ 3 / 4
      · rw [if_pos hge]
        show (if (0 : ℚ) ≠ 0 ∧ (0 : ℚ) ≤ 5 then RunStyle.escape else RunStyle.leading) ≠
          RunStyle.escape
        simp
      · rw [if_neg hge]
        split_ifs <;> simp
  · intro h0 hge
    unfold determineRunningStyle
    rw [if_neg h0, if_pos hge]
    show (if (0 : ℚ) ≠ 0 ∧ (0 : ℚ) ≤ 5 then RunStyle.escape else RunStyle.leading) =
      RunStyle.leading
    simp
  · intro hap
    unfold frontFeature
    rw [hap]
    simp
  · intro hau
    unfold closeFeature
    rw [hau]
    simp

/-- A style record whose optional averages are both the falsy zero. -/
def styleZeroHorse : StyleHorse :=
  { name := some "A", front_count := 2, close_count := 3, avg_pos := some 0, avg_up := some 0 }

/-- Witness for the zero-as-missing behaviour at concrete inputs. -/
theorem zero_optional_features_no_effect_witness :
    determineRunningStyle 3 1 (some 0) none = .leading ∧
    frontFeature styleZeroHorse = 2 ∧ closeFeature styleZeroHorse = 3 :=
  ⟨(zero_optional_features_no_effect 3 1 none styleZeroHorse).2.1 (by norm_num) (by norm_num),
   (zero_optional_features_no_effect 3 1 none styleZeroHorse).2.2.1 rfl,
   (zero_optional_features_no_effect 3 1 none styleZeroHorse).2.2.2 rfl⟩

/-- First horse of the front-degenerate counterexample field: front
count one, close count zero. -/
def styleTwoA : StyleHorse := ⟨some "A", 1, 0, none, none⟩

/-- Second horse of the front-degenerate counterexample field: front
count one, close count ten. -/
def styleTwoB : StyleHorse := ⟨some "B", 1, 10, none, none⟩

/-- C7 counterexample: a field in which every horse has the identical
front feature 1 (so all front z-scores are zero) but distinct close
features; the close top-sum is 1 against a front top-sum of 0 and the
analyzer labels the race closer favored, not average as claimed. -/
theorem analyze_identical_front_not_average :
    (analyzeStyles 3 (8 / 100) (12 / 100) [styleTwoA, styleTwoB]).pace = Pace.closer_favored ∧
    Pace.closer_favored ≠ Pace.average := by
  refine ⟨?_, by decide⟩
  have hfA : frontFeature styleTwoA = 1 := by norm_num [frontFeature, styleTwoA]
  have hfB : frontFeature styleTwoB = 1 := by norm_num [frontFeature, styleTwoB]
  have hcA : closeFeature styleTwoA = 0 := by norm_num [closeFeature, styleTwoA]
  have hcB : closeFeature styleTwoB = 10 := by norm_num [closeFeature, styleTwoB]
  have hnA : nameKeyMaps styleTwoA = "A" := by decide
  have hnB : nameKeyMaps styleTwoB = "B" := by decide
  have hzf : zScores [(1 : ℝ), 1] = [0, 0] := by
    rw [zScores_const _ 1 (by intro x hx; fin_cases hx <;> rfl)]
    rfl
  have hsqrt : Real.sqrt 25 = 5 := by
    rw [show (25 : ℝ) = 5 ^ 2 by norm_num, Real.sqrt_sq (by norm_num : (0 : ℝ) ≤ 5)]
  have hzc : zScores [(0 : ℝ), 10] = [-1, 1] := by
    norm_num [zScores, hsqrt]
  have hft : topPosSum 3 (fun p => p.2.1)
      [(("A" : String), ((0 : ℝ), (-1 : ℝ))), (("B" : String), ((0 : ℝ), (1 : ℝ)))] = 0 :=
    topPosSum_eq_zero _ _ _ (by intro x hx; fin_cases hx <;> norm_num)
  have hct : topPosSum 3 (fun p => p.2.2)
      [(("A" : String), ((0 : ℝ), (-1 : ℝ))), (("B" : String), ((0 : ℝ), (1 : ℝ)))] = 1 := by
    rw [topPosSum_eq_total _ _ _ (by simp [List.countP_cons])]
    norm_num [max_def]
  simp only [analyzeStyles, List.map_cons, List.map_nil, hfA, hfB, hcA, hcB, hnA, hnB,
    Rat.cast_one, Rat.cast_zero, Rat.cast_ofNat]
  norm_num [hzf, hzc, List.zip_cons_cons, List.zip_nil_right, hft, hct]

/-- C7 amended: when all horses have identical front features AND
identical close features, all front z-scores are zero and the pace label
is average.  The close-side condition is necessary: with varying close
features the label becomes closer favored, as the counterexample
shows. -/
theorem analyze_degenerate_field_average (tn : ℕ) (s b : ℝ) (horses : List StyleHorse)
    (hf : ∀ h1 ∈ horses, ∀ h2 ∈ horses, frontFeature h1 = frontFeature h2)
    (hc : ∀ h1 ∈ horses, ∀ h2 ∈ horses, closeFeature h1 = closeFeature h2) :
    (∀ p ∈ (analyzeStyles tn s b horses).front_z, p.2 = 0) ∧
    (analyzeStyles tn s b horses).pace = Pace.average := by
  match horses with
  | [] =>
    constructor
    · intro p hp
      simp [analyzeStyles, zScores] at hp
    · simp [analyzeStyles, topPosSum, sortDescBy, zScores]
  | h0 :: t =>
    have hfc : ∀ x ∈ ((h0 :: t).map frontFeature).map (fun q : ℚ => (q : ℝ)),
        x = ((frontFeature h0 : ℚ) : ℝ) := by
      intro x hx
      obtain ⟨q, hq, rfl⟩ := List.mem_map.mp hx
      obtain ⟨hh, hhm, rfl⟩ := List.mem_map.mp hq
      exact_mod_cast congrArg (fun q : ℚ => (q : ℝ))
        (hf hh hhm h0 (List.mem_cons_self h0 t))
    have hcc : ∀ x ∈ ((h0 :: t).map closeFeature).map (fun q : ℚ => (q : ℝ)),
        x = ((closeFeature h0 : ℚ) : ℝ) := by
      intro x hx
      obtain ⟨q, hq, rfl⟩ := List.mem_map.mp hx
      obtain ⟨hh, hhm, rfl⟩ := List.mem_map.mp hq
      exact_mod_cast congrArg (fun q : ℚ => (q : ℝ))
        (hc hh hhm h0 (List.mem_cons_self h0 t))
    simp only [analyzeStyles]
    rw [zScores_const _ _ hfc, zScores_const _ _ hcc]
    constructor
    · intro p hp
      rcases p with ⟨nm, v⟩
      have hv := (List.of_mem_zip hp).2
      obtain ⟨y, _, rfl⟩ := List.mem_map.mp hv
      rfl
    · have hkeys1 : ∀ x ∈ ((h0 :: t).map nameKeyMaps).zip
          ((((h0 :: t).map frontFeature).map (fun q : ℚ => (q : ℝ))).map (fun _ => (0 : ℝ))
            |>.zip ((((h0 :: t).map closeFeature).map (fun q : ℚ => (q : ℝ))).map
              (fun _ => (0 : ℝ)))),
          (fun (p : String × ℝ × ℝ) => p.2.1) x ≤ 0 := by
        intro x hx
        have hv := (List.of_mem_zip hx).2
        have hv1 := (List.of_mem_zip hv).1
        obtain ⟨y, _, hy⟩ := List.mem_map.mp hv1
        simp [← hy]
      have hkeys2 : ∀ x ∈ ((h0 :: t).map nameKeyMaps).zip
          ((((h0 :: t).map frontFeature).map (fun q : ℚ => (q : ℝ))).map (fun _ => (0 : ℝ))
            |>.zip ((((h0 :: t).map closeFeature).map (fun q : ℚ => (q : ℝ))).map
              (fun _ => (0 : ℝ)))),
          (fun (p : String × ℝ × ℝ) => p.2.2) x ≤ 0 := by
        intro x hx
        have hv := (List.of_mem_zip hx).2
        have hv2 := (List.of_mem_zip hv).2
        obtain ⟨y, _, hy⟩ := List.mem_map.mp hv2
        simp [← hy]
      rw [topPosSum_eq_zero _ _ _ hkeys1, topPosSum_eq_zero _ _ _ hkeys2]
      simp

/-- Witness for the degenerate-field behaviour on a two-horse field with
identical front and close features. -/
theorem analyze_degenerate_field_average_witness :
    (∀ p ∈ (analyzeStyles 3 (8 / 100) (12 / 100)
      [⟨some "A", 1, 2, none, none⟩, ⟨some "B", 1, 2, none, none⟩]).front_z, p.2 = 0) ∧
    (analyzeStyles 3 (8 / 100) (12 / 100)
      [⟨some "A", 1, 2, none, none⟩, ⟨some "B", 1, 2, none, none⟩]).pace = Pace.average :=
  analyze_degenerate_field_average 3 (8 / 100) (12 / 100)
    [⟨some "A", 1, 2, none, none⟩, ⟨some "B", 1, 2, none, none⟩]
    (by intro h1 hh1 h2 hh2; fin_cases hh1 <;> fin_cases hh2 <;> rfl)
    (by intro h1 hh1 h2 hh2; fin_cases hh1 <;> fin_cases hh2 <;> rfl)

/-- Feature of a style record with no optional averages: the raw front
count. -/
theorem frontFeature_no_avg (nm : Option String) (fc cc : ℚ) :
    frontFeature ⟨nm, fc, cc, none, none⟩ = fc := by simp [frontFeature]

/-- Feature of a style record with no optional averages: the raw close
count. -/
theorem closeFeature_no_avg (nm : Option String) (fc cc : ℚ) :
    closeFeature ⟨nm, fc, cc, none, none⟩ = cc := by simp [closeFeature]

/-- Five-horse field for the adjustment-bound counterexample: one horse
with front count five, four with zero, no close counts and no optional
averages.  Front z-scores are 2 and four times minus one half. -/
def styleFive : List StyleHorse :=
  [⟨some "A", 5, 0, none, none⟩, ⟨some "B", 0, 0, none, none⟩, ⟨some "C", 0, 0, none, none⟩,
   ⟨some "D", 0, 0, none, none⟩, ⟨some "E", 0, 0, none, none⟩]

/-- C3 counterexample: with adjustment_scale 3/50000 the claimed bound
is 1 + max_adj = 1 + 3/40000 = 1.000075, but the race is front favored,
the top horse has raw difference 2, and its multiplier
round(1 + tanh(2) * 3/50000, 4) = 1.0001 exceeds the bound, because the
pre-rounding value lies in (1.00005, 1.00006) and rounding to four
decimals overshoots.  So the claim fails for this adjustment_scale. -/
theorem analyze_adjustment_exceeds_claimed_bound :
    lookupLast (analyzeStyles 3 (3 / 50000) (12 / 100) styleFive).adjustments "A" =
      some ((10001 : ℝ) / 10000) ∧
    1 + min (1 / 10 : ℝ) ((3 / 50000) * (5 / 4)) < (10001 : ℝ) / 10000 := by
  constructor
  swap
  · norm_num [min_def]
  have h11 : (11 : ℝ) < Real.exp 4 := by
    have h1 : (2.7182818283 : ℝ) < Real.exp 1 := Real.exp_one_gt_d9
    have h4 : Real.exp 4 = (Real.exp 1) ^ (4 : ℕ) := by
      rw [show (4 : ℝ) = ((4 : ℕ) : ℝ) * 1 by norm_num, Real.exp_nat_mul]
    rw [h4]
    calc (11 : ℝ) < 2.7182818283 ^ (4 : ℕ) := by norm_num
      _ < (Real.exp 1) ^ (4 : ℕ) := pow_lt_pow_left₀ h1 (by norm_num) (by norm_num)
  have h56 : (5 : ℝ) / 6 < Real.tanh 2 := by
    have hc := Real.cosh_pos 2
    rw [Real.tanh_eq_sinh_div_cosh, lt_div_iff₀ hc, Real.sinh_eq, Real.cosh_eq, Real.exp_neg]
    have hE : (0 : ℝ) < Real.exp 2 := Real.exp_pos 2
    have hE2 : Real.exp 2 * Real.exp 2 = Real.exp 4 := by rw [← Real.exp_add]; norm_num
    have h1 : Real.exp 2 * (Real.exp 2)⁻¹ = 1 := mul_inv_cancel₀ (ne_of_gt hE)
    have key : 5 * (Real.exp 2 + (Real.exp 2)⁻¹) < 6 * (Real.exp 2 - (Real.exp 2)⁻¹) := by
      nlinarith [h1, hE, h11, hE2, inv_pos.mpr hE]
    linarith
  have htu : Real.tanh 2 < 1 := by
    have hc := Real.cosh_pos 2
    rw [Real.tanh_eq_sinh_div_cosh, div_lt_one hc, Real.sinh_eq, Real.cosh_eq]
    linarith [Real.exp_pos (-2)]
  have hz5 : zScores [(5 : ℝ), 0, 0, 0, 0] = [2, -(1 / 2), -(1 / 2), -(1 / 2), -(1 / 2)] := by
    have hsq : Real.sqrt 4 = 2 := by
      rw [show (4 : ℝ) = 2 ^ 2 by norm_num, Real.sqrt_sq (by norm_num : (0 : ℝ) ≤ 2)]
    norm_num [zScores, hsq]
  have hz0 : zScores [(0 : ℝ), 0, 0, 0, 0] = [0, 0, 0, 0, 0] := by
    rw [zScores_const _ 0 (by intro x hx; fin_cases hx <;> rfl)]
    rfl
  have hft : topPosSum 3 (fun p => p.2.1)
      [(("A" : String), ((2 : ℝ), (0 : ℝ))), ("B", (-(1 / 2), 0)), ("C", (-(1 / 2), 0)),
       ("D", (-(1 / 2), 0)), ("E", (-(1 / 2), 0))] = 2 := by
    rw [topPosSum_eq_total _ _ _ (by simp [List.countP_cons])]
    norm_num [max_def]
  have hct : topPosSum 3 (fun p => p.2.2)
      [(("A" : String), ((2 : ℝ), (0 : ℝ))), ("B", (-(1 / 2), 0)), ("C", (-(1 / 2), 0)),
       ("D", (-(1 / 2), 0)), ("E", (-(1 / 2), 0))] = 0 :=
    topPosSum_eq_zero _ _ _ (by intro x hx; fin_cases hx <;> norm_num)
  have hnA : nameKeyMaps ⟨some "A", 5, 0, none, none⟩ = "A" := by decide
  have hnB : nameKeyMaps ⟨some "B", 0, 0, none, none⟩ = "B" := by decide
  have hnC : nameKeyMaps ⟨some "C", 0, 0, none, none⟩ = "C" := by decide
  have hnD : nameKeyMaps ⟨some "D", 0, 0, none, none⟩ = "D" := by decide
  have hnE : nameKeyMaps ⟨some "E", 0, 0, none, none⟩ = "E" := by decide
  have hBA : ("B" : String) ≠ "A" := by decide
  have hCA : ("C" : String) ≠ "A" := by decide
  have hDA : ("D" : String) ≠ "A" := by decide
  have hEA : ("E" : String) ≠ "A" := by decide
  have hy1 : (1 : ℝ) / 20000 < Real.tanh 2 * (3 / 50000) := by nlinarith
  have hy2 : Real.tanh 2 * (3 / 50000) < 3 / 50000 := by nlinarith
  have hround : pyRoundTo 4 (1 + Real.tanh 2 * (3 / 50000)) = 10001 / 10000 := by
    unfold pyRoundTo
    have hfl : ⌊(1 + Real.tanh 2 * (3 / 50000)) * 10 ^ (4 : ℕ)⌋ = 10000 := by
      rw [Int.floor_eq_iff]
      constructor <;> push_cast <;> nlinarith
    have hfr : (1 : ℝ) / 2 < Int.fract ((1 + Real.tanh 2 * (3 / 50000)) * 10 ^ (4 : ℕ)) := by
      rw [Int.fract, hfl]
      push_cast
      nlinarith
    unfold roundHalfEven
    rw [if_neg (by push_neg; linarith), if_pos hfr, hfl]
    norm_num
  simp only [analyzeStyles, styleFive, List.map_cons, List.map_nil, frontFeature_no_avg,
    closeFeature_no_avg, hnA, hnB, hnC, hnD, hnE, Rat.cast_ofNat, Rat.cast_zero]
  norm_num [hz5, hz0, List.zip_cons_cons, List.zip_nil_right, hft, hct, lookupLast,
    hBA, hCA, hDA, hEA]
  rw [min_eq_right (by nlinarith : Real.tanh 2 * (3 / 50000) ≤ (3 / 40000 : ℝ)),
    max_eq_right (by nlinarith : (-(3 / 40000) : ℝ) ≤ Real.tanh 2 * (3 / 50000)), hround]

/-- C3 amended: for every nonnegative adjustment_scale s, every
multiplier in the adjustments map lies within
[1 - max_adj - 1/20000, 1 + max_adj + 1/20000] where
max_adj = min(0.10, s * 1.25): the pre-rounding multiplier lies within
[1 - max_adj, 1 + max_adj] by the clip, and rounding to four decimals
moves it by at most half an ulp, 1/20000.  At the default scale 0.08
the bound max_adj = 0.10 is a multiple of the rounding grid and the
exact claimed interval [0.90, 1.10] holds. -/
theorem analyze_adjustment_bounded (tn : ℕ) (s b : ℝ) (horses : List StyleHorse)
    (hs : 0 ≤ s) :
    ∀ p ∈ (analyzeStyles tn s b horses).adjustments,
      1 - min (1 / 10 : ℝ) (s * (5 / 4)) - 1 / 20000 ≤ p.2 ∧
      p.2 ≤ 1 + min (1 / 10 : ℝ) (s * (5 / 4)) + 1 / 20000 ∧
      (s = 8 / 100 → 9 / 10 ≤ p.2 ∧ p.2 ≤ 11 / 10) := by
  intro p hp
  simp only [analyzeStyles] at hp
  obtain ⟨nm, hnm, rfl⟩ := List.mem_map.mp hp
  set m := min (1 / 10 : ℝ) (s * (5 / 4)) with hmdef
  have hm0 : 0 ≤ m := le_min (by norm_num) (by nlinarith)
  set v := Real.tanh _ * s
  have hcl1 : -m ≤ max (-m) (min m v) := le_max_left _ _
  have hcl2 : max (-m) (min m v) ≤ m := max_le (by linarith) (min_le_left _ _)
  have hb := roundHalfEven_bounds ((1 + max (-m) (min m v)) * 10 ^ (4 : ℕ))
  have hfc := roundHalfEven_mem_floor_ceil ((1 + max (-m) (min m v)) * 10 ^ (4 : ℕ))
  refine ⟨?_, ?_, ?_⟩
  · show 1 - m - 1 / 20000 ≤ pyRoundTo 4 (1 + max (-m) (min m v))
    unfold pyRoundTo
    rw [le_div_iff₀ (by norm_num : (0 : ℝ) < 10 ^ (4 : ℕ))]
    have hX : ((10 : ℝ)) ^ (4 : ℕ) = 10000 := by norm_num
    rw [hX] at hb ⊢
    nlinarith [hb.1, hcl1]
  · show pyRoundTo 4 (1 + max (-m) (min m v)) ≤ 1 + m + 1 / 20000
    unfold pyRoundTo
    rw [div_le_iff₀ (by norm_num : (0 : ℝ) < 10 ^ (4 : ℕ))]
    have hX : ((10 : ℝ)) ^ (4 : ℕ) = 10000 := by norm_num
    rw [hX] at hb ⊢
    nlinarith [hb.2, hcl2]
  · intro hs8
    have hm : m = 1 / 10 := by rw [hmdef, hs8]; norm_num [min_def]
    have hX : ((10 : ℝ)) ^ (4 : ℕ) = 10000 := by norm_num
    have hz9 : (9000 : ℝ) ≤ (1 + max (-m) (min m v)) * 10 ^ (4 : ℕ) := by
      rw [hm] at hcl1 ⊢
      rw [hX]
      nlinarith [hcl1]
    have hz11 : (1 + max (-m) (min m v)) * 10 ^ (4 : ℕ) ≤ 11000 := by
      rw [hm] at hcl2 ⊢
      rw [hX]
      nlinarith [hcl2]
    have hlo : (9000 : ℤ) ≤ ⌊(1 + max (-m) (min m v)) * 10 ^ (4 : ℕ)⌋ :=
      Int.le_floor.mpr (by exact_mod_cast hz9)
    have hhi : ⌈(1 + max (-m) (min m v)) * 10 ^ (4 : ℕ)⌉ ≤ 11000 :=
      Int.ceil_le.mpr (by exact_mod_cast hz11)
    have hlo2 : (9000 : ℤ) ≤ roundHalfEven ((1 + max (-m) (min m v)) * 10 ^ (4 : ℕ)) :=
      le_trans hlo hfc.1
    have hhi2 : roundHalfEven ((1 + max (-m) (min m v)) * 10 ^ (4 : ℕ)) ≤ 11000 :=
      le_trans hfc.2 hhi
    constructor
    · show (9 : ℝ) / 10 ≤ pyRoundTo 4 (1 + max (-m) (min m v))
      unfold pyRoundTo
      rw [le_div_iff₀ (by norm_num : (0 : ℝ) < 10 ^ (4 : ℕ))]
      have hcast : ((9000 : ℤ) : ℝ) ≤
          (roundHalfEven ((1 + max (-m) (min m v)) * 10 ^ (4 : ℕ)) : ℝ) := by
        exact_mod_cast hlo2
      push_cast at hcast
      rw [hX] at hcast ⊢
      nlinarith [hcast]
    · show pyRoundTo 4 (1 + max (-m) (min m v)) ≤ (11 : ℝ) / 10
      unfold pyRoundTo
      rw [div_le_iff₀ (by norm_num : (0 : ℝ) < 10 ^ (4 : ℕ))]
      have hcast : (roundHalfEven ((1 + max (-m) (min m v)) * 10 ^ (4 : ℕ)) : ℝ) ≤
          ((11000 : ℤ) : ℝ) := by
        exact_mod_cast hhi2
      push_cast at hcast
      rw [hX] at hcast ⊢
      nlinarith [hcast]

theorem analyze_adjustment_bounded_witness :
    (0 : ℝ) ≤ 8 / 100 ∧
    (("A", (1 : ℝ)) ∈
      (analyzeStyles 3 (8 / 100) (12 / 100) [⟨some "A", 0, 0, none, none⟩]).adjustments) ∧
    (1 - min (1 / 10 : ℝ) ((8 / 100) * (5 / 4)) - 1 / 20000 ≤ (1 : ℝ) ∧
      (1 : ℝ) ≤ 1 + min (1 / 10 : ℝ) ((8 / 100) * (5 / 4)) + 1 / 20000 ∧
      ((8 / 100 : ℝ) = 8 / 100 → 9 / 10 ≤ (1 : ℝ) ∧ (1 : ℝ) ≤ 11 / 10)) := by
  have hmem : (("A", (1 : ℝ)) ∈
      (analyzeStyles 3 (8 / 100) (12 / 100) [⟨some "A", 0, 0, none, none⟩]).adjustments) := by
    have hz1 : zScores [(0:ℝ)] = [0] := by
      rw [zScores_const _ 0 (by intro x hx; fin_cases hx <;> rfl)]
      rfl
    have hna : nameKeyMaps ⟨some "A", 0, 0, none, none⟩ = "A" := by decide
    have htp1 : topPosSum 3 (fun p => p.2.1) [(("A":String), ((0:ℝ), (0:ℝ)))] = 0 :=
      topPosSum_eq_zero _ _ _ (by intro x hx; fin_cases hx <;> norm_num)
    have htp2 : topPosSum 3 (fun p => p.2.2) [(("A":String), ((0:ℝ), (0:ℝ)))] = 0 :=
      topPosSum_eq_zero _ _ _ (by intro x hx; fin_cases hx <;> norm_num)
    have hfr0 : Int.fract ((10000:ℤ) : ℝ) = 0 := Int.fract_intCast 10000
    have hround1 : pyRoundTo 4 (1 : ℝ) = 1 := by
      unfold pyRoundTo roundHalfEven
      rw [show ((1:ℝ) * 10 ^ (4:ℕ)) = ((10000:ℤ) : ℝ) by push_cast; ring]
      rw [hfr0, if_pos (by norm_num : (0:ℝ) < 1/2), Int.floor_intCast]
      norm_num
    simp only [analyzeStyles, List.map_cons, List.map_nil, frontFeature_no_avg,
      closeFeature_no_avg, hna, Rat.cast_zero]
    norm_num [hz1, List.zip_cons_cons, List.zip_nil_right, htp1, htp2, Real.tanh_zero,
      -Prod.mk_zero_zero]
    norm_num [min_def, max_def, hround1]
  exact ⟨by norm_num, hmem,
    analyze_adjustment_bounded 3 (8 / 100) (12 / 100) _ (by norm_num) ("A", 1) hmem⟩

lemma distBonus_nonneg (d : ℤ) (r : PastRace) : 0 ≤ distBonus d r := by
  unfold distBonus
  split_ifs <;> norm_num

lemma venueBonus_nonneg (t : String) (r : PastRace) : 0 ≤ venueBonus t r := by
  unfold venueBonus
  split_ifs <;> norm_num

lemma trendPair_bounds (a b : PastRace) : -10 ≤ trendPair a b ∧ trendPair a b ≤ 15 := by
  unfold trendPair
  split_ifs <;> norm_num

lemma zipScoreSum_nonneg (f : PastRace → ℚ) :
    ∀ (l : List PastRace) (ws : List ℚ), (∀ w ∈ ws, 0 ≤ w) →
      0 ≤ (List.zipWith (fun r w => max 0 (f r) * w) l ws).sum := by
  intro l
  induction l with
  | nil => intro ws _; simp
  | cons a t ih =>
    intro ws hws
    cases ws with
    | nil => simp
    | cons w wt =>
      simp only [List.zipWith_cons_cons, List.sum_cons]
      have h1 : 0 ≤ max 0 (f a) * w :=
        mul_nonneg (le_max_left _ _) (hws w (List.mem_cons_self _ _))
      have h2 : 0 ≤ (List.zipWith (fun r w => max 0 (f r) * w) t wt).sum :=
        ih wt (fun x hx => hws x (List.mem_cons_of_mem _ hx))
      linarith

lemma pastWeights_nonneg : ∀ w ∈ pastWeights, 0 ≤ w := by
  intro w hw
  fin_cases hw <;> norm_num

lemma pastWeights_take_pos : ∀ k : ℕ, 1 ≤ k → 0 < (pastWeights.take k).sum := by
  intro k hk
  match k, hk with
  | 1, _ => norm_num [pastWeights]
  | 2, _ => norm_num [pastWeights]
  | 3, _ => norm_num [pastWeights]
  | 4, _ => norm_num [pastWeights]
  | (n+5), _ =>
    rw [List.take_of_length_le (by simp [pastWeights])]
    norm_num [pastWeights]

lemma max0min100_range (x : ℚ) : 0 ≤ max 0 (min 100 x) ∧ max 0 (min 100 x) ≤ 100 :=
  ⟨le_max_left _ _, max_le (by norm_num) (min_le_left _ _)⟩

lemma evalInterval_values (horse : Horse) (race : RaceData) :
    evalInterval horse race = -10 ∨ evalInterval horse race = -5 ∨
      evalInterval horse race = 0 ∨ evalInterval horse race = 15 := by
  unfold evalInterval
  split
  · tauto
  · split
    · tauto
    · split
      · tauto
      · split
        · simp only []
          split_ifs <;> tauto
        · tauto

lemma weightScoreOf_range (today : ℤ) (horse : Horse) (w : ℤ) :
    0 ≤ weightScoreOf today horse w ∧ weightScoreOf today horse w ≤ 100 := by
  unfold weightScoreOf
  exact max0min100_range _

lemma evalWeightChange_range (today : ℤ) (horse : Horse) :
    0 ≤ evalWeightChange today horse ∧ evalWeightChange today horse ≤ 100 := by
  unfold evalWeightChange
  simp only []
  split
  · norm_num
  · split
    · norm_num
    · exact weightScoreOf_range _ _ _

lemma evalTrackCondition_range (horse : Horse) (race : RaceData) :
    0 ≤ evalTrackCondition horse race ∧ evalTrackCondition horse race ≤ 100 := by
  unfold evalTrackCondition
  split
  · norm_num
  · simp only []
    split
    · norm_num
    · exact max0min100_range _

lemma distBonus_sum_nonneg (d : ℤ) (l : List PastRace) :
    0 ≤ (l.map (distBonus d)).sum := by
  apply List.sum_nonneg
  intro x hx
  obtain ⟨r, _, rfl⟩ := List.mem_map.mp hx
  exact distBonus_nonneg _ _

lemma venueBonus_sum_nonneg (t : String) (l : List PastRace) :
    0 ≤ (l.map (venueBonus t)).sum := by
  apply List.sum_nonneg
  intro x hx
  obtain ⟨r, _, rfl⟩ := List.mem_map.mp hx
  exact venueBonus_nonneg _ _

lemma two_track_bound (d v : ℚ) (hd : 0 ≤ d) (hv : 0 ≤ v) :
    0 ≤ min 100 (60 + d) * (3/5) + min 100 (60 + v) * (2/5) ∧
      min 100 (60 + d) * (3/5) + min 100 (60 + v) * (2/5) ≤ 100 := by
  have h1 : 0 ≤ min 100 (60 + d) := le_min (by norm_num) (by linarith)
  have h2 : min 100 (60 + d) ≤ 100 := min_le_left _ _
  have h3 : 0 ≤ min 100 (60 + v) := le_min (by norm_num) (by linarith)
  have h4 : min 100 (60 + v) ≤ 100 := min_le_left _ _
  constructor <;> linarith

lemma evalCourseFit_range (horse : Horse) (race : RaceData) :
    0 ≤ evalCourseFit horse race ∧ evalCourseFit horse race ≤ 100 := by
  unfold evalCourseFit
  split
  · norm_num
  · simp only []
    exact two_track_bound _ _ (distBonus_sum_nonneg _ _) (venueBonus_sum_nonneg _ _)

lemma base_trend_bound (b0 c T : ℚ) (hb0 : 0 ≤ b0) (hc : 0 ≤ c)
    (hT1 : -20 ≤ T) (hT2 : T ≤ 30) :
    0 ≤ min 100 (b0 + c) * (7/10) + (50 + T) * (3/10) ∧
      min 100 (b0 + c) * (7/10) + (50 + T) * (3/10) ≤ 100 := by
  have hm0 : 0 ≤ min 100 (b0 + c) := le_min (by norm_num) (by linarith)
  have hm1 : min 100 (b0 + c) ≤ 100 := min_le_left _ _
  constructor <;> linarith

lemma evalPastPerformance_range (horse : Horse) :
    0 ≤ evalPastPerformance horse ∧ evalPastPerformance horse ≤ 100 := by
  unfold evalPastPerformance
  split
  · norm_num
  · rename_i a t heq
    rcases t with _ | ⟨b, t2⟩
    · exact base_trend_bound _ _ _
        (div_nonneg (zipScoreSum_nonneg pastTermScore _ _ pastWeights_nonneg)
          (pastWeights_take_pos _ (by simp [List.length_take])).le)
        (by split_ifs <;> norm_num)
        (by simp only []; norm_num) (by simp only []; norm_num)
    · rcases t2 with _ | ⟨c, t3⟩
      · exact base_trend_bound _ _ _
          (div_nonneg (zipScoreSum_nonneg pastTermScore _ _ pastWeights_nonneg)
            (pastWeights_take_pos _ (by simp [List.length_take])).le)
          (by split_ifs <;> norm_num)
          (by simp only []; norm_num) (by simp only []; norm_num)
      · exact base_trend_bound _ _ _
          (div_nonneg (zipScoreSum_nonneg pastTermScore _ _ pastWeights_nonneg)
            (pastWeights_take_pos _ (by simp [List.length_take])).le)
          (by split_ifs <;> norm_num)
          (by simp only []
              linarith [(trendPair_bounds b a).1, (trendPair_bounds c b).1])
          (by simp only []
              linarith [(trendPair_bounds b a).2, (trendPair_bounds c b).2])

lemma rMax0Min100 (x : ℝ) : (0:ℝ) ≤ max 0 (min 100 x) ∧ max 0 (min 100 x) ≤ 100 :=
  ⟨le_max_left _ _, max_le (by norm_num) (min_le_left _ _)⟩

lemma ite_score_range (c : Prop) [Decidable c] (x : ℝ) :
    (0:ℝ) ≤ (if c then max 0 (min 100 x) * (1/2) else max 0 (min 100 x)) ∧
      (if c then max 0 (min 100 x) * (1/2) else max 0 (min 100 x)) ≤ 100 := by
  obtain ⟨h0, h1⟩ := rMax0Min100 x
  split_ifs <;> constructor <;> linarith

lemma evalOddsValue_range (horse : Horse) (past course : ℚ) :
    (0:ℝ) ≤ evalOddsValue horse past course ∧ evalOddsValue horse past course ≤ 100 := by
  unfold evalOddsValue
  simp only []
  split
  · norm_num
  · exact ite_score_range _ _

lemma evalDarkHorse_range (db : String → Option ℚ) (horse : Horse)
    (Hdb : ∀ n s, db n = some s → 0 ≤ s ∧ s ≤ 100) :
    0 ≤ evalDarkHorse db horse ∧ evalDarkHorse db horse ≤ 100 := by
  unfold evalDarkHorse
  simp only []
  split
  · split_ifs <;> norm_num
  · split
    · split_ifs <;> first | exact Hdb _ _ (by assumption) | norm_num
    · split_ifs <;> norm_num

/-- C8 amended: the spec says each of the seven sub-scores lies in the
interval from 0 to 100.  Six of them do, provided every score stored in
the dark-horse database is itself in that interval; the interval
sub-score instead takes its values in the additive bonus set of minus
ten, minus five, zero and fifteen, so the claimed range fails for it. -/
theorem evaluator_subscore_ranges (today : ℤ) (db : String → Option ℚ)
    (horse : Horse) (race : RaceData)
    (Hdb : ∀ n s, db n = some s → 0 ≤ s ∧ s ≤ 100) :
    (0 ≤ evalPastPerformance horse ∧ evalPastPerformance horse ≤ 100) ∧
    (0 ≤ evalCourseFit horse race ∧ evalCourseFit horse race ≤ 100) ∧
    (0 ≤ evalTrackCondition horse race ∧ evalTrackCondition horse race ≤ 100) ∧
    (0 ≤ evalWeightChange today horse ∧ evalWeightChange today horse ≤ 100) ∧
    ((0:ℝ) ≤ evalOddsValue horse (evalPastPerformance horse) (evalCourseFit horse race) ∧
      evalOddsValue horse (evalPastPerformance horse) (evalCourseFit horse race) ≤ 100) ∧
    (0 ≤ evalDarkHorse db horse ∧ evalDarkHorse db horse ≤ 100) ∧
    (evalInterval horse race = -10 ∨ evalInterval horse race = -5 ∨
      evalInterval horse race = 0 ∨ evalInterval horse race = 15) :=
  ⟨evalPastPerformance_range horse,
   ⟨evalCourseFit_range horse race,
    ⟨evalTrackCondition_range horse race,
     ⟨evalWeightChange_range today horse,
      ⟨evalOddsValue_range horse _ _,
       ⟨evalDarkHorse_range db horse Hdb,
        evalInterval_values horse race⟩⟩⟩⟩⟩⟩

/-- Witness for the amended sub-score range theorem, at wall-clock
ordinal 0, an empty dark-horse database, a keyless horse and a race
with no keys. -/
theorem evaluator_subscore_ranges_witness :
    (∀ n s, (fun _ : String => (none : Option ℚ)) n = some s → 0 ≤ s ∧ s ≤ 100) ∧
    ((0 ≤ evalPastPerformance Horse.empty ∧ evalPastPerformance Horse.empty ≤ 100) ∧
     (0 ≤ evalCourseFit Horse.empty ⟨none, RaceInfo.empty, []⟩ ∧
       evalCourseFit Horse.empty ⟨none, RaceInfo.empty, []⟩ ≤ 100) ∧
     (0 ≤ evalTrackCondition Horse.empty ⟨none, RaceInfo.empty, []⟩ ∧
       evalTrackCondition Horse.empty ⟨none, RaceInfo.empty, []⟩ ≤ 100) ∧
     (0 ≤ evalWeightChange 0 Horse.empty ∧ evalWeightChange 0 Horse.empty ≤ 100) ∧
     ((0:ℝ) ≤ evalOddsValue Horse.empty (evalPastPerformance Horse.empty)
          (evalCourseFit Horse.empty ⟨none, RaceInfo.empty, []⟩) ∧
       evalOddsValue Horse.empty (evalPastPerformance Horse.empty)
          (evalCourseFit Horse.empty ⟨none, RaceInfo.empty, []⟩) ≤ 100) ∧
     (0 ≤ evalDarkHorse (fun _ => none) Horse.empty ∧
       evalDarkHorse (fun _ => none) Horse.empty ≤ 100) ∧
     (evalInterval Horse.empty ⟨none, RaceInfo.empty, []⟩ = -10 ∨
       evalInterval Horse.empty ⟨none, RaceInfo.empty, []⟩ = -5 ∨
       evalInterval Horse.empty ⟨none, RaceInfo.empty, []⟩ = 0 ∨
       evalInterval Horse.empty ⟨none, RaceInfo.empty, []⟩ = 15)) :=
  And.intro (fun n s h => nomatch h)
    (evaluator_subscore_ranges 0 (fun _ => none) Horse.empty ⟨none, RaceInfo.empty, []⟩
      (fun n s h => nomatch h))
